import Mathlib

/-!
Verification of the `ctx-mcp` repository: a CLI front-end (`packages/cli/ctx.py`)
and an MCP server front-end (`packages/python-mcp/src/context_mcp/server.py`)
over shared filesystem utilities (init, workspace-state snapshot, command-output
capture, observation store).

The embedding models:
  * Python strings as Lean `String` (sequences of unicode code points); the
    Python string helpers used by the code (`strip`, `splitlines`, slicing,
    `count('\n')`, `join`, `replace`, `startswith('.')`) are re-implemented
    over `List Char`, matching CPython semantics on the inputs the programs
    produce (`splitlines` is modelled on the '\n', '\r' and "\r\n" boundaries);
  * the filesystem as an ordered tree of entries (`Entry`): `os.listdir`,
    `os.scandir` and `pathlib.Path.glob` enumerate a directory in its stored
    (creation) order, which CPython leaves unspecified and unsorted;
  * fallible filesystem operations (`Path.write_text` with a missing parent,
    `Path.mkdir` blocked by a file) return `none`, standing for the raised
    `OSError`;
  * the subprocess boundary as oracles: `RunOutcome` for `subprocess.run`
    (a missing executable makes `subprocess.run` itself raise, modelled by
    `RunOutcome.exeMissing`), `GitOracle` for the two `git` probes
    (`none` = `CalledProcessError`/`FileNotFoundError`);
  * wall-clock readings (`datetime.now`, `time.time`) as explicit parameters.
-/

/-! ## Python string primitives -/

/-- Python's default `str.strip` whitespace set (the ASCII part). -/
def pyIsSpace (c : Char) : Bool :=
  c == ' ' || c == '\t' || c == '\n' || c == '\r' || c == '\x0b' || c == '\x0c'

/-- Python `s.strip()`. -/
def pyStrip (s : String) : String :=
  String.mk (((s.data.dropWhile pyIsSpace).reverse.dropWhile pyIsSpace).reverse)

/-- Worker for `pySplitlines`: `acc` is the current (reversed) line. -/
def pySplitlinesGo : List Char → List Char → List (List Char)
  | [], acc => if acc.isEmpty then [] else [acc.reverse]
  | '\r' :: '\n' :: rest, acc => acc.reverse :: pySplitlinesGo rest []
  | '\n' :: rest, acc => acc.reverse :: pySplitlinesGo rest []
  | '\r' :: rest, acc => acc.reverse :: pySplitlinesGo rest []
  | c :: rest, acc => pySplitlinesGo rest (c :: acc)

/-- Python `s.splitlines()` (no trailing empty line for a trailing newline;
`""` gives `[]`). -/
def pySplitlines (s : String) : List String :=
  (pySplitlinesGo s.data []).map String.mk

/-- Python `s.count('\n')`. -/
def countNl (s : String) : Nat :=
  s.data.count '\n'

/-- Python `sep.join(strs)`. -/
def joinSep (sep : String) : List String → String
  | [] => ""
  | x :: xs => xs.foldl (fun a b => a ++ sep ++ b) x

/-- Python `s[:n]` for `n ≥ 0`. -/
def strTake (s : String) (n : Nat) : String :=
  String.mk (s.data.take n)

/-- Python `s.replace(c₁, c₂)` for one-character patterns. -/
def charReplace (c₁ c₂ : Char) (s : String) : String :=
  String.mk (s.data.map (fun c => if c == c₁ then c₂ else c))

/-- Python `s.startswith('.')`. -/
def pyStartsDot (s : String) : Bool :=
  match s.data with
  | c :: _ => c == '.'
  | [] => false

/-- `startsL pat l`: `l` begins with `pat`. -/
def startsL : List Char → List Char → Bool
  | [], _ => true
  | _ :: _, [] => false
  | a :: as, b :: bs => a == b && startsL as bs

/-- `subL pat l`: `pat` occurs contiguously inside `l` (Python `pat in l`). -/
def subL (pat : List Char) : List Char → Bool
  | [] => pat.isEmpty
  | c :: rest => startsL pat (c :: rest) || subL pat rest

/-- Python `pat in hay` on strings. -/
def sContains (hay pat : String) : Bool :=
  subL pat.data hay.data

/-- Code-point comparison of strings, as Python `<=` on `str`. -/
def charListLe : List Char → List Char → Bool
  | [], _ => true
  | _ :: _, [] => false
  | a :: as, b :: bs =>
    a.toNat < b.toNat || (a.toNat == b.toNat && charListLe as bs)

/-- Python truthiness of an optional `int` argparse value (`if args.head:`). -/
def pyTruthy : Option Int → Bool
  | some k => k != 0
  | none => false

/-- Python `l[:k]` for an `Int` bound. -/
def pySliceTo {α : Type} (l : List α) (k : Int) : List α :=
  if 0 ≤ k then l.take k.toNat else l.take (l.length - (-k).toNat)

/-- Python `l[i:]` for an `Int` start. -/
def pySliceFrom {α : Type} (l : List α) (i : Int) : List α :=
  if 0 ≤ i then l.drop i.toNat else l.drop (l.length - (-i).toNat)

/-! ## Filesystem model

A directory's contents are an ordered `List Entry`; the order is the
enumeration order of `os.listdir` / `os.scandir` / `pathlib.Path.glob`
(CPython does not sort it).  Paths are segment lists relative to the
working directory; a file location is a directory path plus a filename. -/

inductive Entry where
  | file (name : String) (content : String)
  | dir (name : String) (children : List Entry)

def Entry.name : Entry → String
  | .file n _ => n
  | .dir n _ => n

def Entry.isDir : Entry → Bool
  | .file _ _ => false
  | .dir _ _ => true

/-- First entry with the given name (directory entries have unique names on a
real filesystem; the model consistently uses first-match). -/
def findE : List Entry → String → Option Entry
  | [], _ => none
  | e :: rest, nm => if e.name == nm then some e else findE rest nm

/-- Replace the first entry with the given name. -/
def replaceE (cs : List Entry) (nm : String) (e' : Entry) : List Entry :=
  match cs with
  | [] => []
  | e :: rest => if e.name == nm then e' :: rest else e :: replaceE rest nm e'

/-- Children of the directory at a path (`some cs` for the root `[]`). -/
def getDirAt : List String → List Entry → Option (List Entry)
  | [], cs => some cs
  | d :: rest, cs =>
    match findE cs d with
    | some (.dir _ sub) => getDirAt rest sub
    | _ => none

/-- `Path(dirs₊nm).read_text()`: `some` content iff the path names a file. -/
def readAt (dirs : List String) (nm : String) (fs : List Entry) : Option String :=
  match getDirAt dirs fs with
  | some cs =>
    match findE cs nm with
    | some (.file _ c) => some c
    | _ => none
  | none => none

/-- `Path(dirs₊nm).exists()`: true for a file or a directory. -/
def existsAt (dirs : List String) (nm : String) (fs : List Entry) : Bool :=
  match getDirAt dirs fs with
  | some cs => (findE cs nm).isSome
  | none => false

/-- Create/overwrite file `nm` in a directory's children; `none` when a
directory of that name is in the way (`IsADirectoryError`).  A new file is
appended at the end, i.e. last in enumeration order. -/
def setFile (cs : List Entry) (nm : String) (c : String) : Option (List Entry) :=
  match cs with
  | [] => some [.file nm c]
  | e :: rest =>
    if e.name == nm then
      match e with
      | .file _ _ => some (.file nm c :: rest)
      | .dir _ _ => none
    else
      match setFile rest nm c with
      | some rest' => some (e :: rest')
      | none => none

/-- `Path(dirs₊nm).write_text(c)`: fails (`none`) when a parent directory is
missing (`FileNotFoundError`) or the target is a directory. -/
def writeAt : List String → String → String → List Entry → Option (List Entry)
  | [], nm, c, cs => setFile cs nm c
  | d :: rest, nm, c, cs =>
    match findE cs d with
    | some (.dir _ sub) =>
      match writeAt rest nm c sub with
      | some sub' => some (replaceE cs d (.dir d sub'))
      | none => none
    | _ => none

/-- `Path(p).mkdir(parents=True, exist_ok=True)`: creates missing directories
along the path, `none` when a file blocks it (`FileExistsError`). -/
def mkdirp : List String → List Entry → Option (List Entry)
  | [], cs => some cs
  | d :: rest, cs =>
    match findE cs d with
    | some (.dir _ sub) =>
      match mkdirp rest sub with
      | some sub' => some (replaceE cs d (.dir d sub'))
      | none => none
    | some (.file _ _) => none
    | none =>
      match mkdirp rest [] with
      | some sub' => some (cs ++ [.dir d sub'])
      | none => none

/-- All directories along the path exist. -/
def dirsExist : List String → List Entry → Bool
  | [], _ => true
  | d :: rest, cs =>
    match findE cs d with
    | some (.dir _ sub) => dirsExist rest sub
    | _ => false

/-! ## Directory-tree renderer

`ctx.py` `generate_tree` (inside `cmd_state`) and `server.py` `_get_tree`.
Both recurse with `depth + 1` under the guard `depth >= max_depth`; the
embedding carries the equivalent fuel `max_depth - depth`, so the source's
termination argument (depth strictly increases toward the bound) becomes
structural recursion on the fuel. -/

/-- Sort key: `(not os.path.isdir(...), s)` — directories before files,
each group by code-point order. -/
def keyLe (a b : Entry) : Bool :=
  let ra := if a.isDir then 0 else 1
  let rb := if b.isDir then 0 else 1
  ra < rb || (ra == rb && charListLe a.name.data b.name.data)

/-- Stable insertion for `sortE`. -/
def insE (e : Entry) : List Entry → List Entry
  | [] => [e]
  | x :: xs => if keyLe e x then e :: x :: xs else x :: insE e xs

/-- `sorted(os.listdir(dir_path), key=lambda s: (not isdir, s))`. -/
def sortE (cs : List Entry) : List Entry :=
  cs.foldr insE []

/-- Tag each element with `is_last = (i == len(entries) - 1)`. -/
def markLast {α : Type} : List α → List (α × Bool)
  | [] => []
  | [x] => [(x, true)]
  | x :: y :: xs => (x, false) :: markLast (y :: xs)

/-- The collapsed directory names in `ctx.py`. -/
def cliNoisy : List String :=
  ["node_modules", "venv", "__pycache__", "dist", "build"]

/-- The collapsed directory names in `server.py` (adds `.git`). -/
def mcpNoisy : List String :=
  ["node_modules", "venv", "__pycache__", "dist", "build", ".git"]

/-- Python `entry in noisy` on the collapsed-directory name list. -/
def inNoisy (noisy : List String) (nm : String) : Bool :=
  match noisy with
  | [] => false
  | x :: xs => x == nm || inNoisy xs nm

/-- Shared body of `generate_tree` / `_get_tree.generate_lines`:
`fuel = max_depth - depth`. -/
def tree_go (noisy : List String) : Nat → List Entry → String → List String
  | 0, _, _ => []
  | fuel + 1, children, pfx =>
    let entries := (sortE children).filter (fun e => !(pyStartsDot e.name))
    ((markLast entries).map (fun p =>
      let conn := if p.2 then "└── " else "├── "
      match p.1 with
      | .file nm _ => [pfx ++ conn ++ nm]
      | .dir nm cs =>
        if inNoisy noisy nm then [pfx ++ conn ++ nm ++ "/ ..."]
        else
          (pfx ++ conn ++ nm ++ "/") ::
            tree_go noisy fuel cs (pfx ++ (if p.2 then "    " else "│   ")))).flatten

/-- `ctx.py` `generate_tree(dir_path, prefix, depth, max_depth)` as the list
of rendered lines over the modelled directory contents. -/
def generate_tree (fs : List Entry) (pfx : String) (depth maxDepth : Nat) : List String :=
  tree_go cliNoisy (maxDepth - depth) fs pfx

/-- `server.py` `_get_tree(dir_path=".", max_depth=2)`. -/
def mcp_get_tree (fs : List Entry) (maxDepth : Nat) : String :=
  joinSep "\n" (tree_go mcpNoisy maxDepth fs "")

/-! ## Fixed paths and templates (identical in both sources) -/

def MEMORY_DIR : List String := [".agent_memory"]

def SKILLS_DIR : List String := [".ai", "skills"]

def OBSERVATIONS_DIR : List String := [".agent_memory", "observations"]

def CACHE_DIR : List String := [".agent_memory", "context_cache"]

def CODING_STANDARDS_TEMPLATE : String :=
  "# Coding Standards\n\n## General Principles\n- **Clarity over cleverness**: Write code that is easy to understand.\n- **Consistency**: Follow the existing style of the codebase.\n- **DRY (Don't Repeat Yourself)**: Extract common logic.\n\n## Naming Conventions\n- Variables: `camelCase`\n- Functions: `camelCase`\n- Classes: `PascalCase`\n- Constants: `UPPER_CASE`\n\n## Error Handling\n- Always handle errors explicitly.\n- Use custom error classes for domain-specific errors.\n"

def GOALS_TEMPLATE : String :=
  "# Current Goals\n\n## Main Objective\nDescribe the main objective here.\n\n## Tasks\n- [ ] Task 1\n- [ ] Task 2\n"

def GITIGNORE_CONTENT : String := "*\n!.gitignore\n!goals.md\n"

/-- `STATE_TEMPLATE.format(timestamp=ts, goals=…, changes=…, structure=…)`. -/
def state_template (ts goals changes structureStr : String) : String :=
  "# Workspace State\nUpdated: " ++ ts ++ "\n\n## Current Goals\n" ++ goals ++
    "\n\n## Recent Changes\n" ++ changes ++
    "\n\n## Directory Structure (Depth: 2)\n" ++ structureStr ++ "\n"

/-! ## VCS probe oracle -/

/-- Results of the two `git` invocations; `none` models the raised
`CalledProcessError` / `FileNotFoundError`. -/
structure GitOracle where
  statusOut : Option String
  logOut : Option String

/-- `ctx.py` `cmd_state` step 3: one `try` block around both `git status
--short` and `git log -1 --oneline`, falling back to the fixed string. -/
def cli_changes (g : GitOracle) : String :=
  match g.statusOut with
  | none => "Not a git repository."
  | some out =>
    match g.logOut with
    | none => "Not a git repository."
    | some lc =>
      (if out != "" then "```\n" ++ out ++ "```" else "Working tree clean.") ++
        "\n\nLast commit: " ++ pyStrip lc

/-- `server.py` `_get_git_status` (no last-commit probe). -/
def mcp_git_status (g : GitOracle) : String :=
  match g.statusOut with
  | none => "Not a git repository."
  | some out0 =>
    let out := pyStrip out0
    if out != "" then "```\n" ++ out ++ "\n```" else "Working tree clean."

/-! ## init (CLI `cmd_init` and MCP `init_context` perform the identical
filesystem effects; they differ only in console text) -/

def init_fs (fs : List Entry) : Option (List Entry) :=
  (mkdirp SKILLS_DIR fs).bind fun fs1 =>
  (mkdirp OBSERVATIONS_DIR fs1).bind fun fs2 =>
  (mkdirp CACHE_DIR fs2).bind fun fs3 =>
  (if existsAt SKILLS_DIR "coding-standards.md" fs3 then some fs3
   else writeAt SKILLS_DIR "coding-standards.md" CODING_STANDARDS_TEMPLATE fs3).bind fun fs4 =>
  (if existsAt MEMORY_DIR "goals.md" fs4 then some fs4
   else writeAt MEMORY_DIR "goals.md" GOALS_TEMPLATE fs4).bind fun fs5 =>
  (if existsAt MEMORY_DIR ".gitignore" fs5 then some fs5
   else writeAt MEMORY_DIR ".gitignore" GITIGNORE_CONTENT fs5).bind fun fs6 =>
  some fs6

/-! ## State snapshot: the two front-ends -/

/-- `ctx.py` `cmd_state` (filesystem effect and report; console echo under
`--print` repeats the report verbatim and is not modelled). -/
def cmd_state (fs : List Entry) (g : GitOracle) (ts : String) :
    Option (List Entry × String) := do
  let goals ←
    if existsAt MEMORY_DIR "goals.md" fs then readAt MEMORY_DIR "goals.md" fs
    else some "No goals defined."
  let structureStr := joinSep "\n" (generate_tree fs "" 0 2)
  let changes := cli_changes g
  let report := state_template ts (pyStrip goals) (pyStrip changes) (pyStrip structureStr)
  let fs' ← writeAt MEMORY_DIR "state.md" report fs
  some (fs', report)

/-- `server.py` `get_workspace_state` (note: `changes` is inserted into the
template without a further `.strip()`). -/
def get_workspace_state (fs : List Entry) (g : GitOracle) (ts : String) :
    Option (List Entry × String) := do
  let goals ←
    if existsAt MEMORY_DIR "goals.md" fs then readAt MEMORY_DIR "goals.md" fs
    else some "No goals defined."
  let structureStr := mcp_get_tree fs 2
  let changes := mcp_git_status g
  let report := state_template ts (pyStrip goals) changes (pyStrip structureStr)
  let fs' ← writeAt MEMORY_DIR "state.md" report fs
  some (fs', report)

/-! ## Command wrapper (`ctx.py` `cmd_wrap`) -/

/-- Outcome of `subprocess.run(cmd, shell=False, capture_output=True,
text=True)`; a missing executable makes `subprocess.run` itself raise
`FileNotFoundError`. -/
inductive RunOutcome where
  | ok (stdout stderr : String) (returncode : Int)
  | exeMissing

/-- Python exceptions that the modelled code can raise (i.e. not catch). -/
inductive PyErr where
  | fileNotFound
  | writeError
deriving DecidableEq

/-- What `cmd_wrap` does with the captured output. -/
inductive WrapResult where
  | noCommand
  | printed (out : String)
  | saved (filename : String) (summary : String)
deriving DecidableEq

/-- `"_".join(cmd)[:30].replace("/", "_")`. -/
def wrapSlug (cmd : List String) : String :=
  charReplace '/' '_' (strTake (joinSep "_" cmd) 30)

/-- `f"{timestamp}_{cmd_slug}.log"`. -/
def wrapFilename (ts : String) (cmd : List String) : String :=
  ts ++ "_" ++ wrapSlug cmd ++ ".log"

/-- The persisted observation body built in `cmd_wrap`. -/
def wrapContent (cmd : List String) (out err : String) : String :=
  "Command: " ++ joinSep " " cmd ++ "\n\n=== STDOUT ===\n" ++ out ++
    "\n\n=== STDERR ===\n" ++ err

/-- The console summary built in `cmd_wrap` (`duration:.2f` passed as text). -/
def wrapSummary (dur : String) (rc : Int) (fname : String) (combined : String) : String :=
  "\n✅ Command finished in " ++ dur ++ "s " ++
    ("(Exit Code: " ++ toString rc ++ ")") ++
    "\n📦 Output saved to: .agent_memory/observations/" ++ fname ++
    "\n📊 Size: " ++ toString combined.length ++ " chars, " ++
    toString (countNl combined) ++ " lines\n\nPreview (Head 10 lines):\n" ++
    joinSep "\n" ((pySplitlines combined).take 10) ++ "\n...\n"

/-- `is_long = len(combined) > 1000 or combined.count('\n') > 20`. -/
def wrapIsLong (combined : String) : Bool :=
  decide (1000 < combined.length) || decide (20 < countNl combined)

/-- `ctx.py` `cmd_wrap`: threshold `len(combined) > 1000 or
combined.count('\n') > 20`; no exception handler around `subprocess.run`
or `file_path.write_text`. -/
def cmd_wrap (r : RunOutcome) (force : Bool) (ts dur : String) (cmd : List String)
    (fs : List Entry) : Except PyErr (List Entry × WrapResult) :=
  if cmd.isEmpty then .ok (fs, .noCommand)
  else
    match r with
    | .exeMissing => .error .fileNotFound
    | .ok out err rc =>
      let combined := out ++ err
      if wrapIsLong combined || force then
        let fname := wrapFilename ts cmd
        match writeAt OBSERVATIONS_DIR fname (wrapContent cmd out err) fs with
        | some fs' => .ok (fs', .saved fname (wrapSummary dur rc fname combined))
        | none => .error .writeError
      else .ok (fs, .printed combined)

/-! ## Observation store (MCP `save_observation` / `read_observation`,
CLI `cmd_read`) -/

/-- `"".join(c for c in filename_hint if c.isalnum() or c in "_-")[:30]`
(`isalnum` modelled on its ASCII behaviour). -/
def obsSafeHint (hint : String) : String :=
  String.mk ((hint.data.filter (fun c => c.isAlphanum || c == '_' || c == '-')).take 30)

/-- `f"{timestamp}_{safe_hint}.txt"`. -/
def obsFilename (ts hint : String) : String :=
  ts ++ "_" ++ obsSafeHint hint ++ ".txt"

/-- `server.py` `save_observation`: makes the observations directory
(`parents=True, exist_ok=True`) before writing. -/
def save_observation (ts content summary hint : String) (fs : List Entry) :
    Option (List Entry × String) :=
  (mkdirp OBSERVATIONS_DIR fs).bind fun fs1 =>
  (writeAt OBSERVATIONS_DIR (obsFilename ts hint) content fs1).bind fun fs2 =>
  some (fs2, "✅ Content saved to external memory.\nSummary: " ++ summary ++
    "\nFile Path: .agent_memory/observations/" ++ obsFilename ts hint ++
    "\nSize: " ++ toString content.length ++ " chars")

/-- `server.py` `read_observation` at a path split into directory segments
plus filename; `none` models the uncaught `IsADirectoryError`. -/
def read_observation (dirs : List String) (nm : String) (fs : List Entry) :
    Option String :=
  if existsAt dirs nm fs then readAt dirs nm fs
  else some ("Error: File not found at " ++ joinSep "/" (dirs ++ [nm]))

/-- `ctx.py` `cmd_read` filename resolution: exact path first, then
`OBSERVATIONS_DIR.glob(f"*{filename}*")` and `matches[0]`; `glob` yields
entries in directory (scandir) order, unsorted. -/
def cmd_read_resolve (fs : List Entry) (filename : String) : Option String :=
  if existsAt OBSERVATIONS_DIR filename fs then some filename
  else
    match getDirAt OBSERVATIONS_DIR fs with
    | none => none
    | some children =>
      match children.filter (fun e => sContains e.name filename) with
      | [] => none
      | e :: _ => some e.name

/-- `ctx.py` `cmd_read` windowing: `if args.head: lines[:head] elif
args.tail: lines[-tail:] else: content` (argparse `int` options, Python
truthiness). -/
def cmd_read_window (content : String) (headO tailO : Option Int) : String :=
  if pyTruthy headO then
    joinSep "\n" (pySliceTo (pySplitlines content) (headO.getD 0))
  else if pyTruthy tailO then
    joinSep "\n" (pySliceFrom (pySplitlines content) (-(tailO.getD 0)))
  else content

/-! ## Basic lemmas about the filesystem model -/

theorem findE_name {cs : List Entry} {nm : String} {e : Entry}
    (h : findE cs nm = some e) : e.name = nm := by
  induction cs with
  | nil => simp [findE] at h
  | cons x rest ih =>
    by_cases hx : x.name == nm
    · simp [findE, hx] at h
      subst h
      exact eq_of_beq hx
    · simp [findE, hx] at h
      exact ih h

theorem findE_replaceE_self {cs : List Entry} {nm : String} {e' : Entry}
    (h : (findE cs nm).isSome) (hn : e'.name = nm) :
    findE (replaceE cs nm e') nm = some e' := by
  induction cs with
  | nil => simp [findE] at h
  | cons x rest ih =>
    by_cases hx : x.name == nm
    · simp [replaceE, hx, findE, hn]
    · simp [findE, hx] at h
      simp [replaceE, hx, findE, ih h]

theorem findE_replaceE_ne {cs : List Entry} {nm m : String} {e' : Entry}
    (hm : m ≠ nm) (hn : e'.name = nm) :
    findE (replaceE cs nm e') m = findE cs m := by
  induction cs with
  | nil => simp [replaceE]
  | cons x rest ih =>
    by_cases hx : x.name == nm
    · have hxn : x.name = nm := eq_of_beq hx
      have h1 : (e'.name == m) = false := by
        simp [hn]
        exact fun h => hm h.symm
      have h2 : (x.name == m) = false := by
        simp [hxn]
        exact fun h => hm h.symm
      simp [replaceE, hx, findE, h1, h2]
    · by_cases hxm : x.name == m
      · simp [replaceE, hx, findE, hxm]
      · simp [replaceE, hx, findE, hxm, ih]

theorem replaceE_self {cs : List Entry} {nm : String} {e : Entry}
    (h : findE cs nm = some e) : replaceE cs nm e = cs := by
  induction cs with
  | nil => simp [replaceE]
  | cons x rest ih =>
    by_cases hx : x.name == nm
    · simp [findE, hx] at h
      subst h
      simp [replaceE, hx]
    · simp [findE, hx] at h
      simp [replaceE, hx, ih h]

theorem findE_append_some {cs ds : List Entry} {nm : String} {e : Entry}
    (h : findE cs nm = some e) : findE (cs ++ ds) nm = some e := by
  induction cs with
  | nil => simp [findE] at h
  | cons x rest ih =>
    by_cases hx : x.name == nm
    · simp [findE, hx] at h ⊢
      exact h
    · simp [findE, hx] at h ⊢
      exact ih h

theorem findE_append_none {cs ds : List Entry} {nm : String}
    (h : findE cs nm = none) : findE (cs ++ ds) nm = findE ds nm := by
  induction cs with
  | nil => simp
  | cons x rest ih =>
    by_cases hx : x.name == nm
    · simp [findE, hx] at h
    · simp [findE, hx] at h ⊢
      exact ih h

theorem setFile_findE_self {cs cs' : List Entry} {nm c : String}
    (h : setFile cs nm c = some cs') : findE cs' nm = some (.file nm c) := by
  induction cs generalizing cs' with
  | nil =>
    simp [setFile] at h
    subst h
    simp [findE, Entry.name]
  | cons x rest ih =>
    by_cases hx : x.name == nm
    · match x, hx with
      | .file n c0, hx =>
        simp [setFile, hx] at h
        subst h
        simp [findE, Entry.name]
      | .dir n cs0, hx =>
        simp [setFile, hx] at h
    · simp [setFile, hx] at h
      match hr : setFile rest nm c with
      | some rest' =>
        rw [hr] at h
        simp at h
        subst h
        simp [findE, hx, ih hr]
      | none =>
        rw [hr] at h
        simp at h

theorem setFile_findE_ne {cs cs' : List Entry} {nm m c : String}
    (h : setFile cs nm c = some cs') (hm : m ≠ nm) : findE cs' m = findE cs m := by
  induction cs generalizing cs' with
  | nil =>
    simp [setFile] at h
    subst h
    have : ((Entry.file nm c).name == m) = false := by
      simp [Entry.name]
      exact fun hh => hm hh.symm
    simp [findE, this]
  | cons x rest ih =>
    by_cases hx : x.name == nm
    · match x, hx with
      | .file n c0, hx =>
        simp [setFile, hx] at h
        subst h
        have hxm : (Entry.name (.file n c0) == m) = false := by
          have : n = nm := by simpa [Entry.name] using eq_of_beq hx
          simp [Entry.name, this]
          exact fun hh => hm hh.symm
        have hnm : ((Entry.file nm c).name == m) = false := by
          simp [Entry.name]
          exact fun hh => hm hh.symm
        simp [findE, hxm, hnm]
      | .dir n cs0, hx =>
        simp [setFile, hx] at h
    · simp [setFile, hx] at h
      match hr : setFile rest nm c with
      | some rest' =>
        rw [hr] at h
        simp at h
        subst h
        by_cases hxm : x.name == m
        · simp [findE, hxm]
        · simp [findE, hxm, ih hr]
      | none =>
        rw [hr] at h
        simp at h

theorem setFile_none_of_dir {cs : List Entry} {nm c n : String} {sub : List Entry}
    (h : findE cs nm = some (.dir n sub)) : setFile cs nm c = none := by
  induction cs with
  | nil => simp [findE] at h
  | cons x rest ih =>
    by_cases hx : x.name == nm
    · simp [findE, hx] at h
      subst h
      simp [setFile, hx]
    · simp [findE, hx] at h
      simp [setFile, hx, ih h]

theorem setFile_findE_isSome {cs cs' : List Entry} {nm m c : String}
    (h : setFile cs nm c = some cs') (hm : (findE cs m).isSome) :
    (findE cs' m).isSome := by
  by_cases hmn : m = nm
  · subst hmn
    rw [setFile_findE_self h]
    simp
  · rw [setFile_findE_ne h hmn]
    exact hm

/-- Round-trip at the `writeAt` level: a successful write is read back. -/
theorem readAt_writeAt_self {p : List String} {nm c : String} {fs fs' : List Entry}
    (h : writeAt p nm c fs = some fs') : readAt p nm fs' = some c := by
  induction p generalizing fs fs' with
  | nil =>
    simp [writeAt] at h
    simp [readAt, getDirAt, setFile_findE_self h]
  | cons d rest ih =>
    simp only [writeAt] at h
    match hf : findE fs d with
    | some (.dir n sub) =>
      rw [hf] at h
      dsimp only at h
      match hw : writeAt rest nm c sub with
      | some sub' =>
        rw [hw] at h
        dsimp only at h
        simp at h
        subst h
        have hfind : findE (replaceE fs d (.dir d sub')) d = some (.dir d sub') :=
          findE_replaceE_self (by simp [hf]) (by simp [Entry.name])
        have := ih hw
        simp only [readAt, getDirAt, hfind] at this ⊢
        exact this
      | none =>
        rw [hw] at h
        dsimp only at h
        simp at h
    | some (.file n c0) =>
      rw [hf] at h
      simp at h
    | none =>
      rw [hf] at h
      simp at h

theorem existsAt_of_readAt {q : List String} {m c : String} {fs : List Entry}
    (h : readAt q m fs = some c) : existsAt q m fs = true := by
  unfold readAt at h
  unfold existsAt
  match hg : getDirAt q fs with
  | some cs =>
    rw [hg] at h
    dsimp only at h
    match hf : findE cs m with
    | some (.file n c0) => simp [hf]
    | some (.dir n sub) => simp [hf]
    | none => rw [hf] at h; simp at h
  | none => rw [hg] at h; simp at h

theorem dirsExist_eq_isSome {q : List String} {cs : List Entry} :
    dirsExist q cs = (getDirAt q cs).isSome := by
  induction q generalizing cs with
  | nil => simp [dirsExist, getDirAt]
  | cons d rest ih =>
    simp only [dirsExist, getDirAt]
    match hf : findE cs d with
    | some (.dir n sub) => exact ih
    | some (.file n c0) => simp
    | none => simp

/-- Everything `mkdirp` preserves, phrased through `getDirAt`: every directory
reachable before is reachable after, existing names stay present, and file
entries are untouched. -/
theorem mkdirp_preserves {p : List String} {cs cs' : List Entry}
    (h : mkdirp p cs = some cs') :
    ∀ q cs0, getDirAt q cs = some cs0 →
      ∃ cs0', getDirAt q cs' = some cs0' ∧
        (∀ m, (findE cs0 m).isSome → (findE cs0' m).isSome) ∧
        (∀ m n co, findE cs0 m = some (.file n co) → findE cs0' m = some (.file n co)) := by
  induction p generalizing cs cs' with
  | nil =>
    simp [mkdirp] at h
    subst h
    intro q cs0 hq
    exact ⟨cs0, hq, fun _ hm => hm, fun _ _ _ hm => hm⟩
  | cons d pr ih =>
    simp only [mkdirp] at h
    match hf : findE cs d with
    | some (.dir n sub) =>
      rw [hf] at h
      dsimp only at h
      match hmm : mkdirp pr sub with
      | some sub' =>
        rw [hmm] at h
        dsimp only at h
        simp at h
        subst h
        have hfind : findE (replaceE cs d (.dir d sub')) d = some (.dir d sub') :=
          findE_replaceE_self (by simp [hf]) (by simp [Entry.name])
        intro q cs0 hq
        match q with
        | [] =>
          simp [getDirAt] at hq
          subst hq
          refine ⟨replaceE cs d (.dir d sub'), by simp [getDirAt], ?_, ?_⟩
          · intro m hm
            by_cases hmd : m = d
            · subst hmd
              simp [hfind]
            · rw [findE_replaceE_ne hmd (by simp [Entry.name])]
              exact hm
          · intro m nn co hm
            by_cases hmd : m = d
            · subst hmd
              rw [hf] at hm
              simp at hm
            · rw [findE_replaceE_ne hmd (by simp [Entry.name])]
              exact hm
        | e :: qr =>
          simp only [getDirAt] at hq
          match hfe : findE cs e with
          | some (.dir ne sube) =>
            rw [hfe] at hq
            dsimp only at hq
            by_cases hed : e = d
            · subst hed
              rw [hf] at hfe
              have hsub : sube = sub := by
                cases hfe
                rfl
              subst hsub
              obtain ⟨cs0', hg', htr⟩ := ih hmm qr cs0 hq
              refine ⟨cs0', ?_, htr⟩
              simp only [getDirAt]
              rw [hfind]
              exact hg'
            · have : findE (replaceE cs d (.dir d sub')) e = some (.dir ne sube) := by
                rw [findE_replaceE_ne hed (by simp [Entry.name])]
                exact hfe
              refine ⟨cs0, ?_, fun _ hm => hm, fun _ _ _ hm => hm⟩
              simp only [getDirAt]
              rw [this]
              exact hq
          | some (.file ne ce) =>
            rw [hfe] at hq
            simp at hq
          | none =>
            rw [hfe] at hq
            simp at hq
      | none =>
        rw [hmm] at h
        simp at h
    | some (.file n c0) =>
      rw [hf] at h
      simp at h
    | none =>
      rw [hf] at h
      dsimp only at h
      match hmm : mkdirp pr [] with
      | some sub' =>
        rw [hmm] at h
        dsimp only at h
        simp at h
        subst h
        intro q cs0 hq
        match q with
        | [] =>
          simp [getDirAt] at hq
          subst hq
          refine ⟨cs ++ [.dir d sub'], by simp [getDirAt], ?_, ?_⟩
          · intro m hm
            match hm0 : findE cs m with
            | some e0 => simp [findE_append_some hm0]
            | none => rw [hm0] at hm; simp at hm
          · intro m nn co hm
            exact findE_append_some hm
        | e :: qr =>
          simp only [getDirAt] at hq
          match hfe : findE cs e with
          | some (.dir ne sube) =>
            rw [hfe] at hq
            dsimp only at hq
            refine ⟨cs0, ?_, fun _ hm => hm, fun _ _ _ hm => hm⟩
            simp only [getDirAt]
            rw [findE_append_some hfe]
            exact hq
          | some (.file ne ce) =>
            rw [hfe] at hq
            simp at hq
          | none =>
            rw [hfe] at hq
            simp at hq
      | none =>
        rw [hmm] at h
        simp at h

/-- Everything `writeAt` preserves, phrased through `getDirAt`: reachable
directories stay reachable, present names stay present, and every file other
than the written target keeps its content. -/
theorem writeAt_preserves {p : List String} {nm c : String} {cs cs' : List Entry}
    (h : writeAt p nm c cs = some cs') :
    ∀ q cs0, getDirAt q cs = some cs0 →
      ∃ cs0', getDirAt q cs' = some cs0' ∧
        (∀ m, (findE cs0 m).isSome → (findE cs0' m).isSome) ∧
        (∀ m n co, (q ≠ p ∨ m ≠ nm) → findE cs0 m = some (.file n co) →
          findE cs0' m = some (.file n co)) := by
  induction p generalizing cs cs' with
  | nil =>
    simp only [writeAt] at h
    intro q cs0 hq
    match q with
    | [] =>
      simp [getDirAt] at hq
      subst hq
      refine ⟨cs', by simp [getDirAt], ?_, ?_⟩
      · intro m hm
        exact setFile_findE_isSome h hm
      · intro m n co hcond hm
        have hmn : m ≠ nm := by
          rcases hcond with hc | hc
          · exact absurd rfl hc
          · exact hc
        rw [setFile_findE_ne h hmn]
        exact hm
    | e :: qr =>
      simp only [getDirAt] at hq
      match hfe : findE cs e with
      | some (.dir ne sube) =>
        rw [hfe] at hq
        dsimp only at hq
        by_cases hen : e = nm
        · subst hen
          rw [setFile_none_of_dir hfe] at h
          simp at h
        · have : findE cs' e = some (.dir ne sube) := by
            rw [setFile_findE_ne h hen]
            exact hfe
          refine ⟨cs0, ?_, fun _ hm => hm, fun _ _ _ _ hm => hm⟩
          simp only [getDirAt]
          rw [this]
          exact hq
      | some (.file ne ce) =>
        rw [hfe] at hq
        simp at hq
      | none =>
        rw [hfe] at hq
        simp at hq
  | cons d pr ih =>
    simp only [writeAt] at h
    match hf : findE cs d with
    | some (.dir n sub) =>
      rw [hf] at h
      dsimp only at h
      match hw : writeAt pr nm c sub with
      | some sub' =>
        rw [hw] at h
        dsimp only at h
        simp at h
        subst h
        have hfind : findE (replaceE cs d (.dir d sub')) d = some (.dir d sub') :=
          findE_replaceE_self (by simp [hf]) (by simp [Entry.name])
        intro q cs0 hq
        match q with
        | [] =>
          simp [getDirAt] at hq
          subst hq
          refine ⟨replaceE cs d (.dir d sub'), by simp [getDirAt], ?_, ?_⟩
          · intro m hm
            by_cases hmd : m = d
            · subst hmd
              simp [hfind]
            · rw [findE_replaceE_ne hmd (by simp [Entry.name])]
              exact hm
          · intro m nn co hcond hm
            by_cases hmd : m = d
            · subst hmd
              rw [hf] at hm
              simp at hm
            · rw [findE_replaceE_ne hmd (by simp [Entry.name])]
              exact hm
        | e :: qr =>
          simp only [getDirAt] at hq
          match hfe : findE cs e with
          | some (.dir ne sube) =>
            rw [hfe] at hq
            dsimp only at hq
            by_cases hed : e = d
            · subst hed
              rw [hf] at hfe
              have hsub : sube = sub := by
                cases hfe
                rfl
              subst hsub
              obtain ⟨cs0', hg', htr1, htr2⟩ := ih hw qr cs0 hq
              refine ⟨cs0', ?_, htr1, ?_⟩
              · simp only [getDirAt]
                rw [hfind]
                exact hg'
              · intro m nn co hcond hm
                refine htr2 m nn co ?_ hm
                rcases hcond with hc | hc
                · left
                  intro hqr
                  exact hc (by rw [hqr])
                · right
                  exact hc
            · have : findE (replaceE cs d (.dir d sub')) e = some (.dir ne sube) := by
                rw [findE_replaceE_ne hed (by simp [Entry.name])]
                exact hfe
              refine ⟨cs0, ?_, fun _ hm => hm, fun _ _ _ _ hm => hm⟩
              simp only [getDirAt]
              rw [this]
              exact hq
          | some (.file ne ce) =>
            rw [hfe] at hq
            simp at hq
          | none =>
            rw [hfe] at hq
            simp at hq
      | none =>
        rw [hw] at h
        simp at h
    | some (.file n c0) =>
      rw [hf] at h
      simp at h
    | none =>
      rw [hf] at h
      simp at h

theorem readAt_mkdirp {p q : List String} {m co : String} {cs cs' : List Entry}
    (h : mkdirp p cs = some cs') (hr : readAt q m cs = some co) :
    readAt q m cs' = some co := by
  unfold readAt at hr ⊢
  match hg : getDirAt q cs with
  | none => rw [hg] at hr; simp at hr
  | some cs0 =>
    rw [hg] at hr
    dsimp only at hr
    obtain ⟨cs0', hg', _, htr⟩ := mkdirp_preserves h q cs0 hg
    rw [hg']
    dsimp only
    match hf : findE cs0 m with
    | some (.file n c0) =>
      rw [hf] at hr
      dsimp only at hr
      rw [htr m n c0 hf]
      exact hr
    | some (.dir n sub) => rw [hf] at hr; simp at hr
    | none => rw [hf] at hr; simp at hr

theorem existsAt_mkdirp {p q : List String} {m : String} {cs cs' : List Entry}
    (h : mkdirp p cs = some cs') (he : existsAt q m cs = true) :
    existsAt q m cs' = true := by
  unfold existsAt at he ⊢
  match hg : getDirAt q cs with
  | none => rw [hg] at he; simp at he
  | some cs0 =>
    rw [hg] at he
    dsimp only at he
    obtain ⟨cs0', hg', htr, _⟩ := mkdirp_preserves h q cs0 hg
    rw [hg']
    dsimp only
    exact htr m he

theorem dirsExist_mkdirp {p q : List String} {cs cs' : List Entry}
    (h : mkdirp p cs = some cs') (hd : dirsExist q cs = true) :
    dirsExist q cs' = true := by
  rw [dirsExist_eq_isSome] at hd ⊢
  match hg : getDirAt q cs with
  | none => rw [hg] at hd; simp at hd
  | some cs0 =>
    obtain ⟨cs0', hg', _, _⟩ := mkdirp_preserves h q cs0 hg
    rw [hg']
    simp

theorem readAt_writeAt_ne {p q : List String} {nm c m co : String} {cs cs' : List Entry}
    (h : writeAt p nm c cs = some cs') (hcond : q ≠ p ∨ m ≠ nm)
    (hr : readAt q m cs = some co) : readAt q m cs' = some co := by
  unfold readAt at hr ⊢
  match hg : getDirAt q cs with
  | none => rw [hg] at hr; simp at hr
  | some cs0 =>
    rw [hg] at hr
    dsimp only at hr
    obtain ⟨cs0', hg', _, htr⟩ := writeAt_preserves h q cs0 hg
    rw [hg']
    dsimp only
    match hf : findE cs0 m with
    | some (.file n c0) =>
      rw [hf] at hr
      dsimp only at hr
      rw [htr m n c0 hcond hf]
      exact hr
    | some (.dir n sub) => rw [hf] at hr; simp at hr
    | none => rw [hf] at hr; simp at hr

theorem existsAt_writeAt {p q : List String} {nm c m : String} {cs cs' : List Entry}
    (h : writeAt p nm c cs = some cs') (he : existsAt q m cs = true) :
    existsAt q m cs' = true := by
  unfold existsAt at he ⊢
  match hg : getDirAt q cs with
  | none => rw [hg] at he; simp at he
  | some cs0 =>
    rw [hg] at he
    dsimp only at he
    obtain ⟨cs0', hg', htr, _⟩ := writeAt_preserves h q cs0 hg
    rw [hg']
    dsimp only
    exact htr m he

theorem dirsExist_writeAt {p q : List String} {nm c : String} {cs cs' : List Entry}
    (h : writeAt p nm c cs = some cs') (hd : dirsExist q cs = true) :
    dirsExist q cs' = true := by
  rw [dirsExist_eq_isSome] at hd ⊢
  match hg : getDirAt q cs with
  | none => rw [hg] at hd; simp at hd
  | some cs0 =>
    obtain ⟨cs0', hg', _, _⟩ := writeAt_preserves h q cs0 hg
    rw [hg']
    simp

/-- A successful write makes the target exist. -/
theorem existsAt_writeAt_self {p : List String} {nm c : String} {cs cs' : List Entry}
    (h : writeAt p nm c cs = some cs') : existsAt p nm cs' = true :=
  existsAt_of_readAt (readAt_writeAt_self h)

/-- `mkdirp` creates the directories along its path. -/
theorem dirsExist_of_mkdirp {p : List String} {cs cs' : List Entry}
    (h : mkdirp p cs = some cs') : dirsExist p cs' = true := by
  induction p generalizing cs cs' with
  | nil => simp [dirsExist]
  | cons d pr ih =>
    simp only [mkdirp] at h
    match hf : findE cs d with
    | some (.dir n sub) =>
      rw [hf] at h
      dsimp only at h
      match hmm : mkdirp pr sub with
      | some sub' =>
        rw [hmm] at h
        dsimp only at h
        simp at h
        subst h
        have hfind : findE (replaceE cs d (.dir d sub')) d = some (.dir d sub') :=
          findE_replaceE_self (by simp [hf]) (by simp [Entry.name])
        simp only [dirsExist]
        rw [hfind]
        exact ih hmm
      | none => rw [hmm] at h; simp at h
    | some (.file n c0) => rw [hf] at h; simp at h
    | none =>
      rw [hf] at h
      dsimp only at h
      match hmm : mkdirp pr [] with
      | some sub' =>
        rw [hmm] at h
        dsimp only at h
        simp at h
        subst h
        have hfind : findE (cs ++ [.dir d sub']) d = some (.dir d sub') := by
          rw [findE_append_none hf]
          simp [findE, Entry.name]
        simp only [dirsExist]
        rw [hfind]
        exact ih hmm
      | none => rw [hmm] at h; simp at h

/-- `mkdir(exist_ok=True)` is the identity when the directories exist. -/
theorem mkdirp_of_dirsExist {p : List String} {cs : List Entry}
    (h : dirsExist p cs = true) : mkdirp p cs = some cs := by
  induction p generalizing cs with
  | nil => simp [mkdirp]
  | cons d pr ih =>
    simp only [dirsExist] at h
    match hf : findE cs d with
    | some (.dir n sub) =>
      rw [hf] at h
      dsimp only at h
      have hn : n = d := by
        have := findE_name hf
        simpa [Entry.name] using this
      subst hn
      simp only [mkdirp]
      rw [hf]
      dsimp only
      rw [ih h]
      dsimp only
      rw [replaceE_self hf]
    | some (.file n c0) => rw [hf] at h; simp at h
    | none => rw [hf] at h; simp at h

/-- Claim C5: `init` (CLI `cmd_init` / MCP `init_context`) is idempotent:
it never overwrites an existing goals document, skill document or
`.gitignore`, and a second run returns the filesystem unchanged (hence the
set of directories and files after two runs equals the set after one). -/
theorem init_idempotent (fs fs1 : List Entry) (h : init_fs fs = some fs1) :
    (∀ c, readAt MEMORY_DIR "goals.md" fs = some c →
      readAt MEMORY_DIR "goals.md" fs1 = some c) ∧
    (∀ c, readAt SKILLS_DIR "coding-standards.md" fs = some c →
      readAt SKILLS_DIR "coding-standards.md" fs1 = some c) ∧
    (∀ c, readAt MEMORY_DIR ".gitignore" fs = some c →
      readAt MEMORY_DIR ".gitignore" fs1 = some c) ∧
    init_fs fs1 = some fs1 := by
  simp only [init_fs] at h
  rw [Option.bind_eq_some'] at h
  obtain ⟨a1, h1, h⟩ := h
  rw [Option.bind_eq_some'] at h
  obtain ⟨a2, h2, h⟩ := h
  rw [Option.bind_eq_some'] at h
  obtain ⟨a3, h3, h⟩ := h
  rw [Option.bind_eq_some'] at h
  obtain ⟨a4, h4, h⟩ := h
  rw [Option.bind_eq_some'] at h
  obtain ⟨a5, h5, h⟩ := h
  rw [Option.bind_eq_some'] at h
  obtain ⟨a6, h6, heq⟩ := h
  simp at heq
  subst heq
  -- split the three conditional writes into skip/write disjunctions,
  -- keeping the existence fact they establish
  have s4 : (a4 = a3 ∧ existsAt SKILLS_DIR "coding-standards.md" a3 = true) ∨
      writeAt SKILLS_DIR "coding-standards.md" CODING_STANDARDS_TEMPLATE a3 = some a4 := by
    cases hE : existsAt SKILLS_DIR "coding-standards.md" a3 with
    | true =>
      rw [hE] at h4
      simp at h4
      exact Or.inl ⟨h4.symm, rfl⟩
    | false =>
      rw [hE] at h4
      simp at h4
      exact Or.inr h4
  have s5 : (a5 = a4 ∧ existsAt MEMORY_DIR "goals.md" a4 = true) ∨
      writeAt MEMORY_DIR "goals.md" GOALS_TEMPLATE a4 = some a5 := by
    cases hE : existsAt MEMORY_DIR "goals.md" a4 with
    | true =>
      rw [hE] at h5
      simp at h5
      exact Or.inl ⟨h5.symm, rfl⟩
    | false =>
      rw [hE] at h5
      simp at h5
      exact Or.inr h5
  have s6 : (a6 = a5 ∧ existsAt MEMORY_DIR ".gitignore" a5 = true) ∨
      writeAt MEMORY_DIR ".gitignore" GITIGNORE_CONTENT a5 = some a6 := by
    cases hE : existsAt MEMORY_DIR ".gitignore" a5 with
    | true =>
      rw [hE] at h6
      simp at h6
      exact Or.inl ⟨h6.symm, rfl⟩
    | false =>
      rw [hE] at h6
      simp at h6
      exact Or.inr h6
  -- directories exist after the three mkdir calls and are kept by the writes
  have dS3 : dirsExist SKILLS_DIR a3 = true :=
    dirsExist_mkdirp h3 (dirsExist_mkdirp h2 (dirsExist_of_mkdirp h1))
  have dO3 : dirsExist OBSERVATIONS_DIR a3 = true :=
    dirsExist_mkdirp h3 (dirsExist_of_mkdirp h2)
  have dC3 : dirsExist CACHE_DIR a3 = true := dirsExist_of_mkdirp h3
  have dStep4 : ∀ q, dirsExist q a3 = true → dirsExist q a4 = true := by
    intro q hq
    rcases s4 with ⟨he, _⟩ | hw
    · rw [he]; exact hq
    · exact dirsExist_writeAt hw hq
  have dStep5 : ∀ q, dirsExist q a4 = true → dirsExist q a5 = true := by
    intro q hq
    rcases s5 with ⟨he, _⟩ | hw
    · rw [he]; exact hq
    · exact dirsExist_writeAt hw hq
  have dStep6 : ∀ q, dirsExist q a5 = true → dirsExist q a6 = true := by
    intro q hq
    rcases s6 with ⟨he, _⟩ | hw
    · rw [he]; exact hq
    · exact dirsExist_writeAt hw hq
  have dS : dirsExist SKILLS_DIR a6 = true := dStep6 _ (dStep5 _ (dStep4 _ dS3))
  have dO : dirsExist OBSERVATIONS_DIR a6 = true := dStep6 _ (dStep5 _ (dStep4 _ dO3))
  have dC : dirsExist CACHE_DIR a6 = true := dStep6 _ (dStep5 _ (dStep4 _ dC3))
  -- existence of the three files at the end of the first run
  have eStep5 : ∀ q m, existsAt q m a4 = true → existsAt q m a5 = true := by
    intro q m hq
    rcases s5 with ⟨he, _⟩ | hw
    · rw [he]; exact hq
    · exact existsAt_writeAt hw hq
  have eStep6 : ∀ q m, existsAt q m a5 = true → existsAt q m a6 = true := by
    intro q m hq
    rcases s6 with ⟨he, _⟩ | hw
    · rw [he]; exact hq
    · exact existsAt_writeAt hw hq
  have eS4 : existsAt SKILLS_DIR "coding-standards.md" a4 = true := by
    rcases s4 with ⟨he, hex⟩ | hw
    · rw [he]; exact hex
    · exact existsAt_writeAt_self hw
  have eG5 : existsAt MEMORY_DIR "goals.md" a5 = true := by
    rcases s5 with ⟨he, hex⟩ | hw
    · rw [he]; exact hex
    · exact existsAt_writeAt_self hw
  have eGi6 : existsAt MEMORY_DIR ".gitignore" a6 = true := by
    rcases s6 with ⟨he, hex⟩ | hw
    · rw [he]; exact hex
    · exact existsAt_writeAt_self hw
  have eS : existsAt SKILLS_DIR "coding-standards.md" a6 = true :=
    eStep6 _ _ (eStep5 _ _ eS4)
  have eG : existsAt MEMORY_DIR "goals.md" a6 = true := eStep6 _ _ eG5
  -- second run is the identity
  have hrun2 : init_fs a6 = some a6 := by
    simp only [init_fs, mkdirp_of_dirsExist dS, mkdirp_of_dirsExist dO,
      mkdirp_of_dirsExist dC, eS, eG, eGi6, Option.some_bind', if_true]
  refine ⟨?_, ?_, ?_, hrun2⟩
  · -- an existing goals document is never overwritten
    intro c hc
    have hc3 : readAt MEMORY_DIR "goals.md" a3 = some c :=
      readAt_mkdirp h3 (readAt_mkdirp h2 (readAt_mkdirp h1 hc))
    have hc4 : readAt MEMORY_DIR "goals.md" a4 = some c := by
      rcases s4 with ⟨he, _⟩ | hw
      · rw [he]; exact hc3
      · exact readAt_writeAt_ne hw (Or.inl (by decide)) hc3
    have hex4 : existsAt MEMORY_DIR "goals.md" a4 = true := existsAt_of_readAt hc4
    have hc5 : readAt MEMORY_DIR "goals.md" a5 = some c := by
      rcases s5 with ⟨he, _⟩ | hw
      · rw [he]; exact hc4
      · rw [hex4] at h5
        simp at h5
        rw [← h5]
        exact hc4
    rcases s6 with ⟨he, _⟩ | hw
    · rw [he]; exact hc5
    · exact readAt_writeAt_ne hw (Or.inr (by decide)) hc5
  · -- an existing skill document is never overwritten
    intro c hc
    have hc3 : readAt SKILLS_DIR "coding-standards.md" a3 = some c :=
      readAt_mkdirp h3 (readAt_mkdirp h2 (readAt_mkdirp h1 hc))
    have hex3 : existsAt SKILLS_DIR "coding-standards.md" a3 = true :=
      existsAt_of_readAt hc3
    have hc4 : readAt SKILLS_DIR "coding-standards.md" a4 = some c := by
      rw [hex3] at h4
      simp at h4
      rw [← h4]
      exact hc3
    have hc5 : readAt SKILLS_DIR "coding-standards.md" a5 = some c := by
      rcases s5 with ⟨he, _⟩ | hw
      · rw [he]; exact hc4
      · exact readAt_writeAt_ne hw (Or.inl (by decide)) hc4
    rcases s6 with ⟨he, _⟩ | hw
    · rw [he]; exact hc5
    · exact readAt_writeAt_ne hw (Or.inl (by decide)) hc5
  · -- an existing .gitignore is never overwritten
    intro c hc
    have hc3 : readAt MEMORY_DIR ".gitignore" fs = some c → readAt MEMORY_DIR ".gitignore" a3 = some c :=
      fun hh => readAt_mkdirp h3 (readAt_mkdirp h2 (readAt_mkdirp h1 hh))
    have hc3' := hc3 hc
    have hc4 : readAt MEMORY_DIR ".gitignore" a4 = some c := by
      rcases s4 with ⟨he, _⟩ | hw
      · rw [he]; exact hc3'
      · exact readAt_writeAt_ne hw (Or.inl (by decide)) hc3'
    have hc5 : readAt MEMORY_DIR ".gitignore" a5 = some c := by
      rcases s5 with ⟨he, _⟩ | hw
      · rw [he]; exact hc4
      · exact readAt_writeAt_ne hw (Or.inr (by decide)) hc4
    have hex5 : existsAt MEMORY_DIR ".gitignore" a5 = true := existsAt_of_readAt hc5
    rw [hex5] at h6
    simp at h6
    rw [← h6]
    exact hc5

/-- A workspace that already has a user-edited goals document. -/
def initFixturePre : List Entry :=
  [.dir ".agent_memory" [.file "goals.md" "MY GOALS"]]

/-- The result of running `init` once on `initFixturePre`. -/
def initFixturePost : List Entry :=
  [.dir ".agent_memory"
      [.file "goals.md" "MY GOALS", .dir "observations" [],
       .dir "context_cache" [], .file ".gitignore" GITIGNORE_CONTENT],
   .dir ".ai" [.dir "skills" [.file "coding-standards.md" CODING_STANDARDS_TEMPLATE]]]

/-- Witness for `init_idempotent`: on a concrete workspace with a user-edited
goals document, one `init` run keeps its content, and a second run is the
identity. -/
theorem init_idempotent_witness :
    readAt MEMORY_DIR "goals.md" initFixturePost = some "MY GOALS" ∧
    init_fs initFixturePost = some initFixturePost := by
  have h := init_idempotent initFixturePre initFixturePost (by rfl)
  exact ⟨h.1 "MY GOALS" (by rfl), h.2.2.2⟩

/-- Claim C4: round-trip save/read — saving any content with any filename
hint and then reading the file at the exact generated path returns content
identical to what was saved. -/
theorem save_read_roundtrip (ts content summary hint : String) (fs fs' : List Entry)
    (msg : String) (h : save_observation ts content summary hint fs = some (fs', msg)) :
    read_observation OBSERVATIONS_DIR (obsFilename ts hint) fs' = some content := by
  simp only [save_observation] at h
  rw [Option.bind_eq_some'] at h
  obtain ⟨a1, h1, h⟩ := h
  rw [Option.bind_eq_some'] at h
  obtain ⟨a2, h2, heq⟩ := h
  simp at heq
  obtain ⟨hfs, hmsg⟩ := heq
  subst hfs
  have hr : readAt OBSERVATIONS_DIR (obsFilename ts hint) a2 = some content :=
    readAt_writeAt_self h2
  simp only [read_observation, existsAt_of_readAt hr, if_true]
  exact hr

/-- The filesystem produced by `save_observation` of `"hello world"` with hint
`"npm_install_log"` on an empty workspace. -/
def saveFixture : List Entry :=
  [.dir ".agent_memory"
    [.dir "observations"
      [.file "20250101_120000_npm_install_log.txt" "hello world"]]]

/-- Witness for `save_read_roundtrip` at a concrete timestamp, hint and
content on an initially empty workspace. -/
theorem save_read_roundtrip_witness :
    read_observation OBSERVATIONS_DIR (obsFilename "20250101_120000" "npm_install_log")
      saveFixture = some "hello world" :=
  save_read_roundtrip "20250101_120000" "hello world" "greeting log" "npm_install_log"
    [] saveFixture
    ("✅ Content saved to external memory.\nSummary: greeting log" ++
      "\nFile Path: .agent_memory/observations/20250101_120000_npm_install_log.txt" ++
      "\nSize: 11 chars")
    (by rfl)

/-! ## Substring helper lemmas -/

theorem subL_nil (l : List Char) : subL [] l = true := by
  induction l with
  | nil => rfl
  | cons c rest ih => simp [subL, startsL]

theorem startsL_self_append (l t : List Char) : startsL l (l ++ t) = true := by
  induction l with
  | nil => rfl
  | cons c rest ih => simp [startsL, ih]

theorem startsL_append_right {pat l : List Char} (t : List Char)
    (h : startsL pat l = true) : startsL pat (l ++ t) = true := by
  induction pat generalizing l with
  | nil => rfl
  | cons a as ih =>
    match l with
    | [] => simp [startsL] at h
    | b :: bs =>
      simp [startsL] at h ⊢
      exact ⟨h.1, ih h.2⟩

theorem subL_append_right {pat l : List Char} (t : List Char)
    (h : subL pat l = true) : subL pat (l ++ t) = true := by
  induction l with
  | nil =>
    simp [subL] at h
    simp [h, subL_nil]
  | cons c rest ih =>
    simp only [subL, Bool.or_eq_true] at h
    rcases h with h | h
    · simp only [List.cons_append, subL, Bool.or_eq_true]
      exact Or.inl (startsL_append_right t h)
    · simp only [List.cons_append, subL, Bool.or_eq_true]
      exact Or.inr (ih h)

theorem subL_of_middle (pre mid post : List Char) :
    subL mid (pre ++ (mid ++ post)) = true := by
  induction pre with
  | nil =>
    match mid with
    | [] => simp [subL_nil]
    | c :: cs =>
      simp only [List.nil_append, List.cons_append, subL, Bool.or_eq_true]
      exact Or.inl (by simpa using startsL_self_append (c :: cs) post)
  | cons c pre' ih =>
    simp only [List.cons_append, subL, Bool.or_eq_true]
    exact Or.inr ih

theorem sContains_part_right (a mid : String) : sContains (a ++ mid) mid = true := by
  unfold sContains
  rw [String.data_append]
  have := subL_of_middle a.data mid.data []
  simpa using this

theorem sContains_append_right {hay : String} (extra : String) {pat : String}
    (h : sContains hay pat = true) : sContains (hay ++ extra) pat = true := by
  unfold sContains at h ⊢
  rw [String.data_append]
  exact subL_append_right extra.data h

theorem wrapSummary_contains_exit (dur : String) (rc : Int) (fname combined : String) :
    sContains (wrapSummary dur rc fname combined)
      ("(Exit Code: " ++ toString rc ++ ")") = true := by
  unfold wrapSummary
  apply sContains_append_right
  apply sContains_append_right
  apply sContains_append_right
  apply sContains_append_right
  apply sContains_append_right
  apply sContains_append_right
  apply sContains_append_right
  apply sContains_append_right
  apply sContains_append_right
  exact sContains_part_right _ _

/-- Claim C1: the Command Wrapper persists the captured output to an
observation file (rather than printing it) iff the force flag is set, the
combined character count exceeds 1000, or the combined newline count —
the quantity the code itself calls `line_count` (`combined.count('\n')`) —
exceeds 20; otherwise the combined output is printed verbatim and the
filesystem is untouched. -/
theorem wrap_threshold (out err : String) (rc : Int) (force : Bool) (ts dur : String)
    (cmd : List String) (fs : List Entry) (hc : cmd ≠ [])
    (hw : (writeAt OBSERVATIONS_DIR (wrapFilename ts cmd)
      (wrapContent cmd out err) fs).isSome = true) :
    ((∃ fs' s, cmd_wrap (.ok out err rc) force ts dur cmd fs =
        .ok (fs', .saved (wrapFilename ts cmd) s)) ↔
      (force = true ∨ 1000 < (out ++ err).length ∨ 20 < countNl (out ++ err))) ∧
    ((force = false ∧ (out ++ err).length ≤ 1000 ∧ countNl (out ++ err) ≤ 20) →
      cmd_wrap (.ok out err rc) force ts dur cmd fs = .ok (fs, .printed (out ++ err))) := by
  have hne : cmd.isEmpty = false := by
    cases cmd with
    | nil => exact absurd rfl hc
    | cons a l => rfl
  constructor
  · cases hcond : wrapIsLong (out ++ err) || force with
    | true =>
      obtain ⟨fs', hfs'⟩ := Option.isSome_iff_exists.mp hw
      have heq : cmd_wrap (.ok out err rc) force ts dur cmd fs =
          .ok (fs', .saved (wrapFilename ts cmd)
            (wrapSummary dur rc (wrapFilename ts cmd) (out ++ err))) := by
        simp only [cmd_wrap, hne, hcond, hfs']
        rfl
      constructor
      · intro _
        have hc' := hcond
        simp only [wrapIsLong, Bool.or_eq_true, decide_eq_true_eq] at hc'
        tauto
      · intro _
        exact ⟨fs', _, heq⟩
    | false =>
      have heq : cmd_wrap (.ok out err rc) force ts dur cmd fs =
          .ok (fs, .printed (out ++ err)) := by
        simp only [cmd_wrap, hne, hcond]
        rfl
      have hc' := hcond
      simp only [wrapIsLong, Bool.or_eq_true, decide_eq_true_eq, Bool.or_eq_false_iff,
        decide_eq_false_iff_not] at hc'
      constructor
      · intro ⟨fs', s, hsave⟩
        rw [heq] at hsave
        simp at hsave
      · intro hdis
        rcases hc' with ⟨⟨hl, hcnt⟩, hf⟩
        rcases hdis with hd | hd | hd
        · rw [hf] at hd
          exact absurd hd (by simp)
        · exact absurd hd hl
        · exact absurd hd hcnt
  · intro ⟨hf, hl, hcnt⟩
    have hcond : (wrapIsLong (out ++ err) || force) = false := by
      subst hf
      simp only [wrapIsLong, Bool.or_false, Bool.or_eq_false_iff,
        decide_eq_false_iff_not]
      exact ⟨by omega, by omega⟩
    simp only [cmd_wrap, hne, hcond]
    rfl

/-- A workspace with the observations directory present but empty. -/
def wrapFixtureFS : List Entry := [.dir ".agent_memory" [.dir "observations" []]]

/-- Exactly 1000 characters, no newline. -/
def aThousand : String := String.mk (List.replicate 1000 'a')

/-- Exactly 1001 characters, no newline. -/
def aThousandOne : String := String.mk (List.replicate 1001 'a')

set_option maxRecDepth 8192 in
/-- Witness for `wrap_threshold` at the exact boundary: a 1000-character
output is printed (nothing saved, filesystem unchanged); a 1001-character
output is saved. -/
theorem wrap_threshold_witness :
    cmd_wrap (.ok aThousand "" 0) false "20250101_120000" "0.01" ["echo"] wrapFixtureFS =
      .ok (wrapFixtureFS, .printed (aThousand ++ "")) ∧
    cmd_wrap (.ok aThousandOne "" 0) false "20250101_120000" "0.01" ["echo"] wrapFixtureFS =
      .ok ([.dir ".agent_memory" [.dir "observations"
            [.file (wrapFilename "20250101_120000" ["echo"])
              (wrapContent ["echo"] aThousandOne "")]]],
          .saved (wrapFilename "20250101_120000" ["echo"])
            (wrapSummary "0.01" 0 (wrapFilename "20250101_120000" ["echo"])
              (aThousandOne ++ ""))) := by
  constructor
  · exact (wrap_threshold aThousand "" 0 false "20250101_120000" "0.01" ["echo"]
      wrapFixtureFS (by decide) (by rfl)).2 ⟨rfl, by decide, by decide⟩
  · rfl

/-- Counterexample to claim C3 as stated: when the named executable does not
exist, `subprocess.run` raises `FileNotFoundError` and `cmd_wrap` has no
handler around it, so the exception escapes the wrapper (modelled as the
`.error` outcome) instead of being converted to text. -/
theorem wrap_missing_exe_escapes :
    cmd_wrap .exeMissing false "20250101_120000" "0.00" ["definitely-not-a-command"] [] =
      .error .fileNotFound := rfl

/-- Claim C3 (amended): once `subprocess.run` returns a result — any output
and any exit code, including non-zero — `cmd_wrap` completes without an
exception (given a writable observations directory), and whenever it persists
the output, the reported summary carries the exit code as a data field; a
missing executable, by contrast, raises out of the wrapper
(`wrap_missing_exe_escapes`). -/
theorem wrap_ok_never_raises (out err : String) (rc : Int) (force : Bool)
    (ts dur : String) (cmd : List String) (fs : List Entry) (hc : cmd ≠ [])
    (hw : (writeAt OBSERVATIONS_DIR (wrapFilename ts cmd)
      (wrapContent cmd out err) fs).isSome = true) :
    ∃ fs' res, cmd_wrap (.ok out err rc) force ts dur cmd fs = .ok (fs', res) ∧
      ∀ p s, res = .saved p s →
        sContains s ("(Exit Code: " ++ toString rc ++ ")") = true := by
  have hne : cmd.isEmpty = false := by
    cases cmd with
    | nil => exact absurd rfl hc
    | cons a l => rfl
  cases hcond : wrapIsLong (out ++ err) || force with
  | true =>
    obtain ⟨fs', hfs'⟩ := Option.isSome_iff_exists.mp hw
    refine ⟨fs', .saved (wrapFilename ts cmd)
      (wrapSummary dur rc (wrapFilename ts cmd) (out ++ err)), ?_, ?_⟩
    · simp only [cmd_wrap, hne, hcond, hfs']
      rfl
    · intro p s hres
      cases hres
      exact wrapSummary_contains_exit dur rc (wrapFilename ts cmd) (out ++ err)
  | false =>
    refine ⟨fs, .printed (out ++ err), ?_, ?_⟩
    · simp only [cmd_wrap, hne, hcond]
      rfl
    · intro p s hres
      exact WrapResult.noConfusion hres

/-- Witness for `wrap_ok_never_raises`: a concrete forced run with exit code
7 completes with `.ok` and its summary text contains `(Exit Code: 7)`. -/
theorem wrap_ok_never_raises_witness :
    cmd_wrap (.ok "x" "" 7) true "20250101_120000" "0.01" ["echo"] wrapFixtureFS =
      .ok ([.dir ".agent_memory" [.dir "observations"
            [.file (wrapFilename "20250101_120000" ["echo"])
              (wrapContent ["echo"] "x" "")]]],
          .saved (wrapFilename "20250101_120000" ["echo"])
            (wrapSummary "0.01" 7 (wrapFilename "20250101_120000" ["echo"]) ("x" ++ ""))) ∧
    sContains (wrapSummary "0.01" 7 (wrapFilename "20250101_120000" ["echo"]) ("x" ++ ""))
      ("(Exit Code: " ++ toString (7 : Int) ++ ")") = true := by
  obtain ⟨fs', res, heq, hprop⟩ := wrap_ok_never_raises "x" "" 7 true "20250101_120000"
    "0.01" ["echo"] wrapFixtureFS (by decide) (by rfl)
  have heq2 : cmd_wrap (.ok "x" "" 7) true "20250101_120000" "0.01" ["echo"] wrapFixtureFS =
      .ok ([.dir ".agent_memory" [.dir "observations"
            [.file (wrapFilename "20250101_120000" ["echo"])
              (wrapContent ["echo"] "x" "")]]],
          .saved (wrapFilename "20250101_120000" ["echo"])
            (wrapSummary "0.01" 7 (wrapFilename "20250101_120000" ["echo"]) ("x" ++ ""))) := rfl
  have h3 := heq.symm.trans heq2
  simp only [Except.ok.injEq, Prod.mk.injEq] at h3
  exact ⟨heq2, hprop _ _ h3.2⟩

/-- Claim C10: `save_observation` creates the observations directory itself
(`mkdir(parents=True, exist_ok=True)` before the write), so it succeeds on a
workspace where neither `.agent_memory` nor `.agent_memory/observations`
exists and no prior init is required; the CLI wrap path performs no such
directory creation, so on the same workspace a persisting `cmd_wrap` run
fails with the write error. -/
theorem save_needs_no_init (ts content summary hint : String) :
    (save_observation ts content summary hint []).isSome = true ∧
    (∀ fs' msg, save_observation ts content summary hint [] = some (fs', msg) →
      dirsExist OBSERVATIONS_DIR fs' = true) ∧
    (∀ out err rc force dur cmd, cmd ≠ [] →
      (wrapIsLong (out ++ err) || force) = true →
      cmd_wrap (.ok out err rc) force ts dur cmd [] = .error .writeError) := by
  have hmk : mkdirp OBSERVATIONS_DIR [] =
      some [.dir ".agent_memory" [.dir "observations" []]] := rfl
  have hwr : ∀ nm c, writeAt OBSERVATIONS_DIR nm c
      [.dir ".agent_memory" [.dir "observations" []]] =
      some [.dir ".agent_memory" [.dir "observations" [.file nm c]]] := fun nm c => rfl
  refine ⟨?_, ?_, ?_⟩
  · simp [save_observation, hmk, hwr]
  · intro fs' msg h
    simp only [save_observation, hmk, Option.some_bind', hwr] at h
    simp at h
    rw [← h.1]
    rfl
  · intro out err rc force dur cmd hc hcond
    have hne : cmd.isEmpty = false := by
      cases cmd with
      | nil => exact absurd rfl hc
      | cons a l => rfl
    have hwfail : writeAt OBSERVATIONS_DIR (wrapFilename ts cmd)
        (wrapContent cmd out err) [] = none := rfl
    simp only [cmd_wrap, hne, hcond, hwfail]
    rfl

/-- Witness for `save_needs_no_init`: concrete save succeeds on the empty
workspace while a concrete forced wrap on the same workspace raises. -/
theorem save_needs_no_init_witness :
    (save_observation "20250101_120000" "data" "a log" "hint" []).isSome = true ∧
    cmd_wrap (.ok "" "" 0) true "20250101_120000" "0.01" ["ls"] [] =
      .error .writeError := by
  have h := save_needs_no_init "20250101_120000" "data" "a log" "hint"
  exact ⟨h.1, h.2.2 "" "" 0 true "0.01" ["ls"] (by decide) (by decide)⟩

/-- Counterexample to claim C7 as stated ("for every requested count k"):
`--head 0` is falsy in Python (`if args.head:`), so the code returns the
full content — here 2 lines — instead of `min(0, N) = 0` lines. -/
theorem windowed_read_zero_head :
    cmd_read_window "a\nb" (some 0) none = "a\nb" ∧
    (pySplitlines "a\nb").length = 2 ∧
    cmd_read_window "a\nb" (some 0) none ≠ joinSep "\n" ((pySplitlines "a\nb").take 0) := by
  refine ⟨rfl, rfl, ?_⟩
  decide

/-- Claim C7 (amended): for every positive requested count, `head k` returns
exactly the first `min(k, N)` of the N split lines, `tail k` returns exactly
the last `min(k, N)` lines, and when both are given `head` takes precedence;
a requested count of 0 is falsy and treated as absent. -/
theorem windowed_read_correct (c : String) (k j : Int) (hk : 0 < k) (hj : 0 < j) :
    cmd_read_window c (some k) none = joinSep "\n" ((pySplitlines c).take k.toNat) ∧
    ((pySplitlines c).take k.toNat).length = min k.toNat (pySplitlines c).length ∧
    cmd_read_window c none (some j) =
      joinSep "\n" ((pySplitlines c).drop ((pySplitlines c).length - j.toNat)) ∧
    ((pySplitlines c).drop ((pySplitlines c).length - j.toNat)).length =
      min j.toNat (pySplitlines c).length ∧
    cmd_read_window c (some k) (some j) = cmd_read_window c (some k) none := by
  have hkt : pyTruthy (some k) = true := by
    simp only [pyTruthy, bne_iff_ne, ne_eq]
    omega
  have hjt : pyTruthy (some j) = true := by
    simp only [pyTruthy, bne_iff_ne, ne_eq]
    omega
  have h0 : pyTruthy (none : Option Int) = false := rfl
  have hsliceTo : pySliceTo (pySplitlines c) k = (pySplitlines c).take k.toNat := by
    simp [pySliceTo, Int.le_of_lt hk]
  have hneg : ¬ (0 : Int) ≤ -j := by omega
  have hsliceFrom : pySliceFrom (pySplitlines c) (-j) =
      (pySplitlines c).drop ((pySplitlines c).length - j.toNat) := by
    simp [pySliceFrom, hneg]
  refine ⟨?_, ?_, ?_, ?_, ?_⟩
  · simp [cmd_read_window, hkt, hsliceTo]
  · simp [List.length_take]
  · simp [cmd_read_window, h0, hjt, hsliceFrom]
  · simp only [List.length_drop]
    omega
  · simp [cmd_read_window, hkt]

/-- Witness for `windowed_read_correct` on a concrete three-line file. -/
theorem windowed_read_correct_witness :
    cmd_read_window "l1\nl2\nl3" (some 2) none = "l1\nl2" ∧
    cmd_read_window "l1\nl2\nl3" none (some 1) = "l3" ∧
    cmd_read_window "l1\nl2\nl3" (some 2) (some 1) = "l1\nl2" := by
  have h := windowed_read_correct "l1\nl2\nl3" 2 1 (by decide) (by decide)
  refine ⟨?_, ?_, ?_⟩
  · rw [h.1]
    rfl
  · rw [h.2.2.1]
    rfl
  · rw [h.2.2.2.2, h.1]
    rfl

/-- Two observation files whose names both contain the query, stored with the
non-lexicographic-first one earlier in directory order. -/
def readFixture : List Entry :=
  [.dir ".agent_memory" [.dir "observations"
    [.file "b_query.log" "B", .file "a_query.log" "A"]]]

/-- Counterexample to claim C6 as stated: with no exact match and two
matching files, `cmd_read` picks `matches[0]` of `Path.glob`, which
enumerates in directory order — here `b_query.log` — not the lexicographic
first `a_query.log`. -/
theorem partial_match_not_lex :
    existsAt OBSERVATIONS_DIR "query" readFixture = false ∧
    sContains "b_query.log" "query" = true ∧
    sContains "a_query.log" "query" = true ∧
    charListLe "a_query.log".data "b_query.log".data = true ∧
    cmd_read_resolve readFixture "query" = some "b_query.log" := by
  refine ⟨rfl, ?_, ?_, ?_, rfl⟩ <;> decide

/-- Claim C6 (amended): with no exact filename match, the read operation
resolves to the first file in the observation directory's listing order whose
name contains the query; as a pure function of the directory contents it is
deterministic across repeated calls with unchanged contents. -/
theorem partial_match_first_listed (fs : List Entry) (q : String)
    (children : List Entry) (e : Entry) (rest : List Entry)
    (hne : existsAt OBSERVATIONS_DIR q fs = false)
    (hdir : getDirAt OBSERVATIONS_DIR fs = some children)
    (hmatch : children.filter (fun en => sContains en.name q) = e :: rest) :
    cmd_read_resolve fs q = some e.name := by
  simp only [cmd_read_resolve, hne, hdir, hmatch]
  rfl

/-- Witness for `partial_match_first_listed` on a concrete directory. -/
theorem partial_match_first_listed_witness :
    cmd_read_resolve [.dir ".agent_memory" [.dir "observations"
      [.file "x_q.log" "X", .file "y_q.log" "Y"]]] "q" = some "x_q.log" :=
  partial_match_first_listed _ "q" [.file "x_q.log" "X", .file "y_q.log" "Y"]
    (.file "x_q.log" "X") [.file "y_q.log" "Y"] (by rfl) (by rfl) (by rfl)

/-! ## Depth-truncation of directory trees (for the depth-bound property) -/

/-- Keep only the top `f` levels of a directory forest: with fuel `0`
everything is dropped, otherwise each entry keeps its name and kind and a
directory keeps its children truncated one level shallower. -/
def truncList : Nat → List Entry → List Entry
  | 0, _ => []
  | f + 1, cs => cs.map (fun e =>
      match e with
      | .file n c => .file n c
      | .dir n cs' => .dir n (truncList f cs'))

/-- The per-entry action of `truncList (f+1)`. -/
def truncTop (f : Nat) : Entry → Entry
  | .file n c => .file n c
  | .dir n cs' => .dir n (truncList f cs')

theorem truncList_succ (f : Nat) (cs : List Entry) :
    truncList (f + 1) cs = cs.map (truncTop f) := rfl

theorem truncTop_name (f : Nat) (e : Entry) : (truncTop f e).name = e.name := by
  cases e <;> rfl

theorem truncTop_isDir (f : Nat) (e : Entry) : (truncTop f e).isDir = e.isDir := by
  cases e <;> rfl

theorem keyLe_truncTop (f : Nat) (a b : Entry) :
    keyLe (truncTop f a) (truncTop f b) = keyLe a b := by
  simp [keyLe, truncTop_name, truncTop_isDir]

theorem insE_map_truncTop (f : Nat) (e : Entry) (l : List Entry) :
    insE (truncTop f e) (l.map (truncTop f)) = (insE e l).map (truncTop f) := by
  induction l with
  | nil => rfl
  | cons x xs ih =>
    simp only [List.map_cons, insE, keyLe_truncTop]
    by_cases h : keyLe e x
    · simp [h]
    · simp [h, ih]

theorem sortE_map_truncTop (f : Nat) (cs : List Entry) :
    sortE (cs.map (truncTop f)) = (sortE cs).map (truncTop f) := by
  induction cs with
  | nil => rfl
  | cons x xs ih =>
    show insE (truncTop f x) (sortE (xs.map (truncTop f))) = _
    rw [ih]
    exact insE_map_truncTop f x (sortE xs)

theorem filter_dot_map_truncTop (f : Nat) (l : List Entry) :
    (l.map (truncTop f)).filter (fun e => !(pyStartsDot e.name)) =
      (l.filter (fun e => !(pyStartsDot e.name))).map (truncTop f) := by
  induction l with
  | nil => rfl
  | cons x xs ih =>
    simp only [List.map_cons, List.filter_cons, truncTop_name]
    cases h : !(pyStartsDot x.name) with
    | true => simp [h, ih]
    | false => simp [h, ih]

theorem markLast_map {α β : Type} (g : α → β) (l : List α) :
    markLast (l.map g) = (markLast l).map (fun p => (g p.1, p.2)) := by
  induction l with
  | nil => rfl
  | cons x xs ih =>
    cases xs with
    | nil => rfl
    | cons y ys =>
      simp only [List.map_cons] at ih ⊢
      simp only [markLast] at ih ⊢
      rw [ih]
      rfl

/-- Rendering is invariant under truncating everything below the fuel bound:
no rendered line depends on entries nested deeper than the bound. -/
theorem tree_go_trunc (noisy : List String) (fuel : Nat) (cs : List Entry) (pfx : String) :
    tree_go noisy fuel (truncList fuel cs) pfx = tree_go noisy fuel cs pfx := by
  induction fuel generalizing cs pfx with
  | zero => rfl
  | succ f ih =>
    rw [truncList_succ]
    simp only [tree_go]
    rw [sortE_map_truncTop, filter_dot_map_truncTop, markLast_map, List.map_map]
    congr 1
    apply List.map_congr_left
    intro p _
    match p with
    | (e, b) =>
      match e with
      | .file n c => rfl
      | .dir n cs' =>
        simp only [Function.comp_apply, truncTop]
        cases hn : inNoisy noisy n with
        | true => simp [hn]
        | false => simp [hn, ih]

/-- Claim C8: tree depth bound — the rendered tree is unchanged when
everything nested more than `max_depth` levels below the root is removed, so
no line of the output refers to an entry beyond that depth, and deeper
content is omitted without any marker.  (In the embedding the source's
recursion on `depth` under the guard `depth >= max_depth` is carried as the
fuel `max_depth - depth`, on which the renderer is structurally recursive —
the source's termination argument that depth strictly increases toward the
bound.) -/
theorem tree_depth_bound (cs : List Entry) (pfx : String) (d m : Nat) :
    generate_tree (truncList (m - d) cs) pfx d m = generate_tree cs pfx d m ∧
    mcp_get_tree (truncList m cs) m = mcp_get_tree cs m := by
  constructor
  · exact tree_go_trunc cliNoisy (m - d) cs pfx
  · unfold mcp_get_tree
    rw [tree_go_trunc]

theorem markLast_mem {α : Type} {l : List α} {p : α × Bool}
    (h : p ∈ markLast l) : p.1 ∈ l := by
  induction l with
  | nil => simp [markLast] at h
  | cons x xs ih =>
    cases xs with
    | nil =>
      simp [markLast] at h
      simp [h]
    | cons y ys =>
      simp only [markLast, List.mem_cons] at h
      rcases h with h | h
      · simp [h]
      · exact List.mem_cons_of_mem x (ih h)

theorem inNoisy_mcp_cli {nm : String} (h : pyStartsDot nm = false) :
    inNoisy mcpNoisy nm = inNoisy cliNoisy nm := by
  have hgit : (".git" == nm) = false := by
    cases hb : ".git" == nm with
    | false => rfl
    | true =>
      have hnm : nm = ".git" := (eq_of_beq hb).symm
      rw [hnm] at h
      exact absurd h (by decide)
  simp [mcpNoisy, cliNoisy, inNoisy, hgit]

/-- The only difference between the two noisy-name lists is `.git`, which the
hidden-entry filter removes before the noisy check, so the two renderers
produce identical trees. -/
theorem tree_go_noisy (fuel : Nat) (cs : List Entry) (pfx : String) :
    tree_go cliNoisy fuel cs pfx = tree_go mcpNoisy fuel cs pfx := by
  induction fuel generalizing cs pfx with
  | zero => rfl
  | succ f ih =>
    simp only [tree_go]
    congr 1
    apply List.map_congr_left
    intro p hp
    obtain ⟨e, b⟩ := p
    have hmem : e ∈ (sortE cs).filter (fun en => !(pyStartsDot en.name)) :=
      markLast_mem hp
    have hdot : pyStartsDot e.name = false := by
      have := (List.mem_filter.mp hmem).2
      simpa using this
    cases e with
    | file n c => rfl
    | dir n cs' =>
      have hdot' : pyStartsDot n = false := by simpa [Entry.name] using hdot
      dsimp only
      rw [inNoisy_mcp_cli hdot']
      cases hn : inNoisy cliNoisy n with
      | true => simp [hn]
      | false => simp [hn, ih]

/-- A workspace in which `.agent_memory` exists, inside a git repository with
a clean tree and one commit. -/
def stateFixtureFS : List Entry := [.dir ".agent_memory" []]

/-- Git oracle for a repository: `git status --short` prints nothing,
`git log -1 --oneline` prints a commit line. -/
def repoOracle : GitOracle := ⟨some "", some "abc123 initial commit"⟩

/-- Counterexample to claim C2 as stated: inside a git repository the two
front-ends do not produce the same report — the CLI appends the
`Last commit:` summary line, the MCP `_get_git_status` never queries it. -/
theorem state_frontends_differ :
    (cmd_state stateFixtureFS repoOracle "T").map Prod.snd ≠
      (get_workspace_state stateFixtureFS repoOracle "T").map Prod.snd := by
  decide

/-- Claim C2 (amended): the two front-ends compose the same goals text and
the same depth-2 tree and persist to the same path, and whenever the VCS
probe fails ("Not a git repository.") they produce identical results; inside
a git repository they differ, because only the CLI appends the last-commit
summary line (`state_frontends_differ`). -/
theorem state_frontends_agree (fs : List Entry) (g : GitOracle) (ts : String)
    (h : g.statusOut = none) :
    cmd_state fs g ts = get_workspace_state fs g ts := by
  have hch : pyStrip (cli_changes g) = mcp_git_status g := by
    simp only [cli_changes, mcp_git_status, h]
    rfl
  have htree : joinSep "\n" (generate_tree fs "" 0 2) = mcp_get_tree fs 2 := by
    unfold generate_tree mcp_get_tree
    rw [tree_go_noisy]
  simp only [cmd_state, get_workspace_state]
  rw [htree, hch]

/-- Witness for `state_frontends_agree` on a concrete non-repository
workspace. -/
theorem state_frontends_agree_witness :
    cmd_state stateFixtureFS ⟨none, none⟩ "T" =
      get_workspace_state stateFixtureFS ⟨none, none⟩ "T" :=
  state_frontends_agree stateFixtureFS ⟨none, none⟩ "T" rfl

/-- The state report produced by `init` followed by `state` in an empty
non-repository directory. -/
def initStateReport : String :=
  "# Workspace State\nUpdated: T0\n\n## Current Goals\n# Current Goals\n\n" ++
  "## Main Objective\nDescribe the main objective here.\n\n## Tasks\n" ++
  "- [ ] Task 1\n- [ ] Task 2\n\n## Recent Changes\nNot a git repository.\n\n" ++
  "## Directory Structure (Depth: 2)\n\n"

set_option maxRecDepth 16384 in
/-- Counterexample to claim C9 as stated: after `init`, the goals document
exists (created from the template), so the state file written by `state` in
an empty non-repository directory does not contain "No goals defined.". -/
theorem init_state_no_goals_refuted :
    ((init_fs []).bind (fun fs => cmd_state fs ⟨none, none⟩ "T0")).bind
      (fun p => (readAt MEMORY_DIR "state.md" p.1).map
        (fun r => sContains r "No goals defined.")) = some false := by
  decide

set_option maxRecDepth 16384 in
/-- Claim C9 (amended): in an empty non-repository directory, `init` then
`state` writes a state file that contains the goals placeholder template
(since `init` creates `goals.md`) and "Not a git repository.", and whose
directory-structure section is empty — the newly created `.ai` and
`.agent_memory` entries are dot-prefixed and the tree renderer skips hidden
entries. -/
theorem init_state_report_exact :
    ((init_fs []).bind (fun fs => cmd_state fs ⟨none, none⟩ "T0")).bind
        (fun p => readAt MEMORY_DIR "state.md" p.1) = some initStateReport ∧
    sContains initStateReport "Describe the main objective here." = true ∧
    sContains initStateReport "Not a git repository." = true ∧
    sContains initStateReport ".ai" = false ∧
    sContains initStateReport ".agent_memory" = false := by
  refine ⟨rfl, ?_, ?_, ?_, ?_⟩ <;> decide
